import Mathlib

/-!
# Verification of the Telnyx SMS webhook server (`main.py`)

A shallow embedding of the single-file FastAPI application: the webhook
payload parser, the verification-code extractor (an explicit model of the
five `re.search` patterns the code applies in order), the platform
detector, and the SQLite-backed message store with its query endpoints.
Machine-checked theorems about the embedding follow the definitions.

Modelling conventions:
* Python strings are Lean `String`s; character classes (`\d`, `\w`, `\s`)
  are modelled over their ASCII meaning, which is what every message in
  scope exercises.
* The SQLite table is a list of records in rowid (insertion) order plus
  the next AUTOINCREMENT id.  `ORDER BY timestamp DESC LIMIT 1` is the
  maximum under lexicographic string comparison (SQLite compares TEXT by
  memcmp, which on UTF-8 agrees with code-point order); on equal
  timestamps the embedding keeps the earliest row, SQLite leaves the tie
  unspecified, and no theorem below depends on a tie.
* `datetime.now()` and the 24-hour cutoff are passed in as opaque
  ISO-8601 strings, since the claims only constrain how they are used.
-/

/-! ## JSON values (decoded webhook bodies) -/

/-- A decoded JSON value, as handed to the webhook handler by
`await request.json()`.  Numbers are modelled as integers (no claim
involves fractional payload values); objects keep field order and are
assumed key-unique, as produced by Python's JSON decoder. -/
inductive Json where
  | null : Json
  | bool (b : Bool) : Json
  | num (n : Int) : Json
  | str (s : String) : Json
  | arr (items : List Json) : Json
  | obj (fields : List (String × Json)) : Json
deriving Repr

/-- Python truthiness (`bool(v)`) for decoded JSON values: `None`, `False`,
`0`, `""`, `[]`, `{}` are falsy, everything else truthy.  Used by the
handler's `if not phone or not message_text` guards. -/
def truthy : Json → Bool
  | .null => false
  | .bool b => b
  | .num n => n != 0
  | .str s => !s.isEmpty
  | .arr items => !items.isEmpty
  | .obj fields => !fields.isEmpty

/-- Does the value model a Python `dict`?  (`isinstance(v, dict)`). -/
def Json.isObj : Json → Bool
  | .obj _ => true
  | _ => false

/-- `v.get(k, d)` on a Python value: succeeds with the stored value (or the
default `d` when the key is absent) when `v` is a dict, and raises
`AttributeError` — modelled as `Except.error` — otherwise. -/
def jget (j : Json) (k : String) (d : Json) : Except Unit Json :=
  match j with
  | .obj fields => .ok ((fields.lookup k).getD d)
  | _ => .error ()

/-- `v.get(k)` (default `None`). -/
def jget1 (j : Json) (k : String) : Except Unit Json :=
  jget j k .null

/-! ## Code extraction (`re.search` over the five patterns) -/

/-- A regex word character (`\w`): letters, digits, underscore. -/
def wordChar (c : Char) : Bool :=
  c.isAlphanum || c == '_'

/-- A regex whitespace character (`\s`), ASCII part. -/
def whitespaceRe (c : Char) : Bool :=
  c == ' ' || c == '\t' || c == '\n' || c == '\r' || c == '\x0b' || c == '\x0c'

/-- Take exactly `n` leading digits: `some (digits, rest)` when the string
starts with at least `n` digit characters. -/
def takeDigits : Nat → List Char → Option (List Char × List Char)
  | 0, s => some ([], s)
  | _ + 1, [] => none
  | n + 1, c :: rest =>
      if c.isDigit then
        match takeDigits n rest with
        | some (ds, rem) => some (c :: ds, rem)
        | none => none
      else none

/-- `\b` holds immediately before a digit iff we are at the start of the
input or the previous character is not a word character. -/
def boundaryBefore : Option Char → Bool
  | none => true
  | some p => !wordChar p

/-- Attempt `\b(\d{n})\b` at the current position of the input (whose
previous character, if any, is `prev`). -/
def tryBare (n : Nat) (prev : Option Char) (s : List Char) : Option (List Char) :=
  if boundaryBefore prev then
    match takeDigits n s with
    | some (ds, rem) =>
        match rem with
        | [] => some ds
        | c :: _ => if wordChar c then none else some ds
    | none => none
  else none

/-- `re.search` for `\b(\d{n})\b`: try each start position left to right,
returning the first capture. -/
def bareSearchAux (n : Nat) (prev : Option Char) : List Char → Option (List Char)
  | [] => none
  | c :: rest =>
      match tryBare n prev (c :: rest) with
      | some ds => some ds
      | none => bareSearchAux n (some c) rest

/-- The captured group of `re.search(r'\b(\d{n})\b', msg)`, over lists. -/
def bareSearchL (n : Nat) (s : List Char) : Option (List Char) :=
  bareSearchAux n none s

/-- The captured group of `re.search(r'\b(\d{n})\b', msg)`. -/
def bareSearch (n : Nat) (msg : String) : Option String :=
  (bareSearchL n msg.toList).map fun ds => String.mk ds

/-- Case-insensitive literal prefix match (the `re.IGNORECASE` flag):
returns the input after the keyword when it matches. -/
def dropKeywordCI : List Char → List Char → Option (List Char)
  | [], s => some s
  | _ :: _, [] => none
  | k :: ks, c :: cs =>
      if k.toLower == c.toLower then dropKeywordCI ks cs else none

/-- After a matched keyword, `[:\s]*(\d{4,8})`: the star greedily consumes
colons and whitespace (no digit is in the class, so no backtracking can
succeed), then the greedy `\d{4,8}` captures `min 8` of the following
digit run provided at least 4 digits are present. -/
def kwTail (s : List Char) : Option (List Char) :=
  let rest := s.dropWhile fun c => c == ':' || whitespaceRe c
  let ds := (rest.takeWhile Char.isDigit).take 8
  if decide (4 ≤ ds.length) then some ds else none

/-- `re.search` for `kw[:\s]*(\d{4,8})` with `IGNORECASE`: leftmost start
position wins. -/
def kwSearchAux (kw : List Char) : List Char → Option (List Char)
  | [] => none
  | c :: rest =>
      match dropKeywordCI kw (c :: rest) with
      | some after =>
          match kwTail after with
          | some ds => some ds
          | none => kwSearchAux kw rest
      | none => kwSearchAux kw rest

/-- The captured group of `re.search(kw + r'[:\s]*(\d{4,8})', msg, re.IGNORECASE)`. -/
def kwSearch (kw : String) (msg : String) : Option String :=
  (kwSearchAux kw.toList msg.toList).map fun ds => String.mk ds

/-- `main.py` lines 99–112: the `code_patterns` loop.  The patterns are
tried in the source's order — bare 6-digit, bare 5-digit, bare 4-digit,
`code[:\s]*(\d{4,8})`, `verification[:\s]*(\d{4,8})` — and the first
match's capture group is returned. -/
def extractCode (msg : String) : Option String :=
  match bareSearch 6 msg with
  | some c => some c
  | none =>
    match bareSearch 5 msg with
    | some c => some c
    | none =>
      match bareSearch 4 msg with
      | some c => some c
      | none =>
        match kwSearch "code" msg with
        | some c => some c
        | none => kwSearch "verification" msg

/-! ## Platform detection (`main.py` lines 114–125) -/

/-- Python's `str.lower()` (ASCII range, which covers every keyword). -/
def lowerAscii (s : String) : String :=
  String.mk (s.toList.map Char.toLower)

/-- Python's substring test `needle in hay`, over character lists. -/
def containsSubL (needle : List Char) : List Char → Bool
  | [] => needle.isEmpty
  | c :: rest => needle.isPrefixOf (c :: rest) || containsSubL needle rest

/-- Python's substring test `needle in hay`. -/
def containsSub (needle hay : String) : Bool :=
  containsSubL needle.toList hay.toList

/-- `any(keyword in message_lower for keyword in kws)`. -/
def anyKeyword (lower : String) (kws : List String) : Bool :=
  kws.any fun k => containsSub k lower

/-- `main.py` lines 114–125: lower-case the message, then test the keyword
lists in the source's order, first hit wins, default `"unknown"`. -/
def detectPlatform (msg : String) : String :=
  let lower := lowerAscii msg
  if anyKeyword lower ["instagram", "ig"] then "instagram"
  else if anyKeyword lower ["tiktok", "tik tok"] then "tiktok"
  else if anyKeyword lower ["youtube", "google"] then "youtube"
  else if anyKeyword lower ["twitter", "x.com"] then "twitter"
  else "unknown"

/-- Platform detection as the spec words it (§4.1): lower-case the text,
check containment of the keyword sets in fixed priority order, first match
wins, default `unknown`.  Stated separately so the code's cascade can be
proved to refine the spec's. -/
def detectPlatformSpec (msg : String) : String :=
  let lower := lowerAscii msg
  if ["instagram", "ig"].any (fun k => containsSub k lower) then "instagram"
  else if ["tiktok", "tik tok"].any (fun k => containsSub k lower) then "tiktok"
  else if ["youtube", "google"].any (fun k => containsSub k lower) then "youtube"
  else if ["twitter", "x.com"].any (fun k => containsSub k lower) then "twitter"
  else "unknown"

/-! ## The message store (`sms_messages` table) -/

/-- A row of the `sms_messages` table. -/
structure Record where
  id : Nat
  phone : String
  message : String
  timestamp : String
  extracted_code : Option String
  platform : String
  used : Bool
deriving Repr, DecidableEq

/-- The table in rowid order, plus the next AUTOINCREMENT id. -/
structure Store where
  records : List Record
  nextId : Nat
deriving Repr, DecidableEq

/-- `INSERT INTO sms_messages (phone, message, timestamp, extracted_code,
platform) VALUES (?, ?, ?, ?, ?)` (`main.py` lines 128–134): appends a row
with the next AUTOINCREMENT id and the column default `used = 0`, and
returns the assigned id. -/
def Store.insert (s : Store) (phone message timestamp : String)
    (code : Option String) (platform : String) : Nat × Store :=
  (s.nextId,
   { records := s.records ++
       [{ id := s.nextId, phone := phone, message := message,
          timestamp := timestamp, extracted_code := code,
          platform := platform, used := false }],
     nextId := s.nextId + 1 })

/-- SQLite's TEXT comparison (memcmp over UTF-8 bytes, which agrees with
code-point lexicographic order): `tsLtL a b` iff `a` sorts strictly before
`b`. -/
def tsLtL : List Char → List Char → Bool
  | [], [] => false
  | [], _ :: _ => true
  | _ :: _, [] => false
  | a :: as, b :: bs =>
      if a.toNat < b.toNat then true
      else if b.toNat < a.toNat then false
      else tsLtL as bs

/-- SQLite's TEXT comparison on strings. -/
def tsLt (a b : String) : Bool :=
  tsLtL a.toList b.toList

/-- `ORDER BY timestamp DESC LIMIT 1`: the row with the lexicographically
greatest timestamp; on ties the earliest row is kept (SQLite leaves tie
order unspecified; no theorem depends on a tie). -/
def pickLatest : List Record → Option Record
  | [] => none
  | r :: rs =>
      match pickLatest rs with
      | none => some r
      | some best => if tsLt r.timestamp best.timestamp then some best else some r

/-- The `WHERE` clause of the SELECT in `get_platform_code` (`main.py`
lines 174–179): `phone = ? AND platform = ? AND extracted_code IS NOT NULL
AND used = 0`. -/
def matchesQuery (r : Record) (phone platform : String) : Bool :=
  r.phone == phone && r.platform == platform && r.extracted_code.isSome && !r.used

/-- The `WHERE` clause of the UPDATE in `get_platform_code` (`main.py`
lines 184–187): `phone = ? AND platform = ? AND extracted_code = ?` — note
it matches every row carrying the same code, not just the selected row. -/
def tripleMatches (r : Record) (phone platform code : String) : Bool :=
  r.phone == phone && r.platform == platform && r.extracted_code == some code

/-- `GET /get_code/{phone}/{platform}` (`main.py` lines 169–202): select
the most recent unused row with a code for the phone and platform; if one
exists, set `used = 1` on every row matching
`(phone, platform, extracted_code)` and return `(code, timestamp)`;
otherwise return nothing and leave the table alone. -/
def getPlatformCode (s : Store) (phone platform : String) :
    Option (String × String) × Store :=
  match pickLatest (s.records.filter fun r => matchesQuery r phone platform) with
  | none => (none, s)
  | some r =>
      let code := r.extracted_code.getD ""
      (some (code, r.timestamp),
       { s with records := s.records.map fun q =>
           if tripleMatches q phone platform code then { q with used := true } else q })

/-- The `WHERE` clause of `get_latest_code` (`main.py` lines 150–153):
`phone = ? AND extracted_code IS NOT NULL`. -/
def hasCodeFor (r : Record) (phone : String) : Bool :=
  r.phone == phone && r.extracted_code.isSome

/-- `GET /get_code/{phone}` (`main.py` lines 145–167): most recent row with
a code for the phone; read-only. -/
def getLatestCode (s : Store) (phone : String) : Option Record :=
  pickLatest (s.records.filter fun r => hasCodeFor r phone)

/-- `ORDER BY timestamp DESC` over a whole result set (stable, so equal
timestamps keep rowid order — SQLite leaves their order unspecified). -/
def sortByTimestampDesc (l : List Record) : List Record :=
  l.mergeSort fun a b => !tsLt a.timestamp b.timestamp

/-- `GET /messages/{phone}?limit=N` (`main.py` lines 204–228); read-only. -/
def getMessages (s : Store) (phone : String) (limit : Nat) : List Record :=
  (sortByTimestampDesc (s.records.filter fun r => r.phone == phone)).take limit

/-- `SELECT COUNT(*) FROM sms_messages WHERE timestamp > ?` (`main.py`
lines 249–251), with the 24-hour-ago cutoff passed in as a string. -/
def countSince (s : Store) (cutoff : String) : Nat :=
  (s.records.filter fun r => tsLt cutoff r.timestamp).length

/-- A value in a JSON response object. -/
inductive HVal where
  | str (s : String) : HVal
  | num (n : Nat) : HVal
deriving Repr, DecidableEq

/-- `GET /health` (`main.py` lines 244–260), success path: the literal
response object the handler builds.  `cutoff` stands for
`(datetime.now() - timedelta(hours=24)).isoformat()` computed at request
time. -/
def healthCheck (s : Store) (cutoff : String) : List (String × HVal) :=
  [("status", HVal.str "healthy"),
   ("database", HVal.str "connected"),
   ("messages_24h", HVal.num (countSince s cutoff))]

/-! ## The webhook handler (`POST /webhook/telnyx`, `main.py` lines 37–143) -/

/-- Fallback method 3 (`main.py` lines 74–88): depth-first search of the
payload for a `+`-prefixed string under `phone_number`/`from` and a
non-empty string under `text`/`body`/`message`; later hits overwrite
earlier ones, and a branch is recursed into only when no key rule fires. -/
def findPM (j : Json) (acc : Option String × Option String) :
    Option String × Option String :=
  match j with
  | .obj fields => findPMFields fields acc
  | .arr items => findPMItems items acc
  | _ => acc
where
  findPMFields : List (String × Json) → Option String × Option String →
      Option String × Option String
    | [], acc => acc
    | (k, v) :: rest, acc =>
        let acc' :=
          match v with
          | .str sv =>
              if (k == "phone_number" || k == "from") && sv.startsWith "+" then
                (some sv, acc.2)
              else if (k == "text" || k == "body" || k == "message") && !sv.isEmpty then
                (acc.1, some sv)
              else acc
          | .obj fs => findPMFields fs acc
          | .arr its => findPMItems its acc
          | _ => acc
        findPMFields rest acc'
  findPMItems : List Json → Option String × Option String →
      Option String × Option String
    | [], acc => acc
    | v :: rest, acc => findPMItems rest (findPM v acc)

/-- The four extraction methods of the handler (`main.py` lines 45–91),
yielding the final `(phone, message_text, received_at)` values, or an
`AttributeError` (modelled as `Except.error`) when a `.get` is called on a
non-dict.  `now` is `datetime.now().isoformat()`. -/
def extractPM (data : Json) (now : String) : Except Unit (Json × Json × Json) := do
  let mut phone : Json := .null
  let mut msg : Json := .null
  let mut recvAt : Json := .str now
  let et ← jget1 data "event_type"
  if (match et with | .str s => s == "message.received" | _ => false) then
    let dd ← jget data "data" (.obj [])
    let payload ← jget dd "payload" (.obj [])
    let fr ← jget payload "from" (.obj [])
    phone ← jget fr "phone_number" (.str "")
    msg ← jget payload "text" (.str "")
    recvAt ← jget payload "received_at" recvAt
  if !truthy phone || !truthy msg then
    let md ← jget data "data" (.obj [])
    let fr ← jget1 md "from"
    if fr.isObj then
      phone ← jget fr "phone_number" (.str "")
    else
      phone ← jget md "from" (.str "")
    let t1 ← jget md "text" (.str "")
    let t2 ← jget md "body" (.str "")
    msg := if truthy t1 then t1 else t2
    recvAt ← jget md "received_at" recvAt
  if !truthy phone || !truthy msg then
    let fr ← jget1 data "from"
    if fr.isObj then
      phone ← jget fr "phone_number" (.str "")
    else
      phone ← jget data "from" (.str "")
    let t1 ← jget data "text" (.str "")
    let t2 ← jget data "body" (.str "")
    let t3 ← jget data "message" (.str "")
    msg := if truthy t1 then t1 else if truthy t2 then t2 else t3
  if !truthy phone || !truthy msg then
    let pm := findPM data (none, none)
    phone := match pm.1 with | some s => .str s | none => .null
    msg := match pm.2 with | some s => .str s | none => .null
  return (phone, msg, recvAt)

/-- Does the handler's final guard (`main.py` line 93) reject the body?
True when extraction raised or when either final value is falsy. -/
def extractionFails (data : Json) (now : String) : Bool :=
  match extractPM data now with
  | .error _ => true
  | .ok (p, m, _) => !truthy p || !truthy m

/-- The webhook response, reduced to the fields the claims constrain. -/
inductive WebhookResp where
  | received (code_extracted : Bool) (phone platform : String) : WebhookResp
  | error : WebhookResp
deriving Repr, DecidableEq

/-- Binding a Python value as a TEXT column parameter: strings bind as
themselves, ints and bools bind numerically and are coerced to text by the
column's TEXT affinity; `None`, dicts and lists cannot be stored
(`NOT NULL` violation / `InterfaceError`, which the handler's `except`
turns into an error response before any commit). -/
def bindText : Json → Option String
  | .str s => some s
  | .num n => some (toString n)
  | .bool b => some (if b then "1" else "0")
  | _ => none

/-- `POST /webhook/telnyx` (`main.py` lines 37–143): run the four
extraction methods; reject (in-band, nothing stored) when no method
produced truthy phone and message values or when any step raised; else
extract the code and platform from the message text and insert the row. -/
def receiveSms (data : Json) (now : String) (s : Store) : WebhookResp × Store :=
  match extractPM data now with
  | .error _ => (.error, s)
  | .ok (phone, msg, recvAt) =>
      if !truthy phone || !truthy msg then (.error, s)
      else
        match msg with
        | .str msgStr =>
            let code := extractCode msgStr
            let platform := detectPlatform msgStr
            (match bindText phone, bindText recvAt with
             | some pStr, some tStr =>
                 let ins := Store.insert s pStr msgStr tStr code platform
                 (.received code.isSome pStr platform, ins.2)
             | _, _ => (.error, s))
        | _ => (.error, s)

/-! ## Operation sequences over the store -/

/-- One store operation, as issued by the HTTP endpoints: the two mutating
operations carry their arguments, the read-only queries are listed so that
sequences can interleave them. -/
inductive Op where
  | insert (phone message timestamp : String) (code : Option String) (platform : String) : Op
  | consume (phone platform : String) : Op
  | latest (phone : String) : Op
  | recent (phone : String) (limit : Nat) : Op
  | countSince (cutoff : String) : Op
  | countTotal : Op
deriving Repr, DecidableEq

/-- The store reached after one operation.  The queries backed by plain
SELECTs leave the table untouched. -/
def applyOp (s : Store) : Op → Store
  | .insert p m t c pl => (Store.insert s p m t c pl).2
  | .consume p pl => (getPlatformCode s p pl).2
  | .latest _ => s
  | .recent _ _ => s
  | .countSince _ => s
  | .countTotal => s

/-- The store reached after a sequence of operations. -/
def applyOps (s : Store) : List Op → Store
  | [] => s
  | op :: rest => applyOps (applyOp s op) rest

/-- Well-formedness of the table: ids strictly increase in rowid order and
stay below the next AUTOINCREMENT id. -/
def WFStore (s : Store) : Prop :=
  List.Pairwise (· < ·) (s.records.map Record.id) ∧
  ∀ r ∈ s.records, r.id < s.nextId

/-- Everything about a record except its `used` flag. -/
def sameCore (r r' : Record) : Prop :=
  r'.id = r.id ∧ r'.phone = r.phone ∧ r'.message = r.message ∧
  r'.timestamp = r.timestamp ∧ r'.extracted_code = r.extracted_code ∧
  r'.platform = r.platform

/-- How a store may evolve under the exposed operations: rows are never
deleted or reordered, every surviving row keeps all fields except that its
`used` flag may only go from `false` to `true`, and the AUTOINCREMENT
counter never decreases. -/
def Evolves (s s' : Store) : Prop :=
  s.nextId ≤ s'.nextId ∧
  ∀ i r, s.records.get? i = some r →
    ∃ r', s'.records.get? i = some r' ∧ sameCore r r' ∧
      (r.used = true → r'.used = true)

/-! ## Concrete fixtures used by counterexamples and witnesses -/

/-- An unused instagram record with code `1234`. -/
def r1C2 : Record :=
  { id := 1, phone := "p", message := "m1", timestamp := "2024-01-01T00:00:00",
    extracted_code := some "1234", platform := "instagram", used := false }

/-- A second, more recent record for the same phone and platform carrying
the same extracted code. -/
def r2C2 : Record :=
  { r1C2 with id := 2, message := "m2", timestamp := "2024-01-02T00:00:00" }

/-- A store holding both records. -/
def sC2 : Store := { records := [r1C2, r2C2], nextId := 3 }

/-- A single unused tiktok record with code `55555`. -/
def rC3 : Record :=
  { id := 1, phone := "q", message := "tiktok 55555", timestamp := "2024-02-01T00:00:00",
    extracted_code := some "55555", platform := "tiktok", used := false }

/-- A store holding just that record. -/
def sC3 : Store := { records := [rC3], nextId := 2 }

/-- A store holding one twitter and one unrelated instagram record for the
same phone. -/
def sC6 : Store :=
  { records :=
      [{ id := 1, phone := "w", message := "ig 1111", timestamp := "2024-03-01T00:00:00",
         extracted_code := some "1111", platform := "instagram", used := false },
       { id := 2, phone := "w", message := "twitter 9999", timestamp := "2024-03-02T00:00:00",
         extracted_code := some "9999", platform := "twitter", used := false }],
    nextId := 3 }

/-- An operation sequence exercising both mutating operations. -/
def opsC9 : List Op :=
  [.insert "p" "hi 1234" "2024-01-01T00:00:00" (some "1234") "instagram",
   .insert "p" "ig 777777" "2024-01-02T00:00:00" (some "777777") "instagram",
   .consume "p" "instagram",
   .countTotal]

/-! ## Support lemmas for the code extractor -/

theorem takeDigits_spec (n : Nat) :
    ∀ (s ds rem : List Char), takeDigits n s = some (ds, rem) →
      ds.length = n ∧ ds.all Char.isDigit = true ∧ s = ds ++ rem := by
  induction n with
  | zero =>
      intro s ds rem h
      simp only [takeDigits, Option.some.injEq, Prod.mk.injEq] at h
      obtain ⟨rfl, rfl⟩ := h
      simp
  | succ m ih =>
      intro s ds rem h
      match s with
      | [] => simp [takeDigits] at h
      | c :: rest =>
          simp only [takeDigits] at h
          by_cases hc : c.isDigit
          · rw [if_pos hc] at h
            cases htd : takeDigits m rest with
            | none => rw [htd] at h; exact absurd h (by simp)
            | some p =>
                obtain ⟨ds', rem'⟩ := p
                rw [htd] at h
                simp only [Option.some.injEq, Prod.mk.injEq] at h
                obtain ⟨rfl, rfl⟩ := h
                obtain ⟨h1, h2, h3⟩ := ih rest ds' rem' htd
                subst h3
                refine ⟨by simp [h1], ?_, by simp⟩
                simp only [List.all_cons, h2, Bool.and_true]
                exact hc
          · rw [if_neg hc] at h
            exact absurd h (by simp)

theorem tryBare_spec (n : Nat) (prev : Option Char) (s ds : List Char)
    (h : tryBare n prev s = some ds) :
    ∃ rem, s = ds ++ rem ∧ ds.length = n ∧ ds.all Char.isDigit = true := by
  unfold tryBare at h
  by_cases hb : boundaryBefore prev = true
  · rw [if_pos hb] at h
    cases htd : takeDigits n s with
    | none => rw [htd] at h; exact absurd h (by simp)
    | some p =>
        obtain ⟨ds', rem'⟩ := p
        rw [htd] at h
        obtain ⟨h1, h2, h3⟩ := takeDigits_spec n s ds' rem' htd
        cases rem' with
        | nil =>
            dsimp only at h
            simp only [Option.some.injEq] at h
            subst h
            exact ⟨[], h3, h1, h2⟩
        | cons c rest =>
            dsimp only at h
            by_cases hw : wordChar c = true
            · rw [if_pos hw] at h; exact absurd h (by simp)
            · rw [if_neg hw] at h
              simp only [Option.some.injEq] at h
              subst h
              exact ⟨c :: rest, h3, h1, h2⟩
  · rw [if_neg hb] at h
    exact absurd h (by simp)

theorem bareSearchAux_spec (n : Nat) :
    ∀ (s : List Char) (prev : Option Char) (ds : List Char),
      bareSearchAux n prev s = some ds →
      (∃ pre post, s = pre ++ ds ++ post) ∧
      ds.length = n ∧ ds.all Char.isDigit = true := by
  intro s
  induction s with
  | nil => intro prev ds h; simp [bareSearchAux] at h
  | cons c rest ih =>
      intro prev ds h
      simp only [bareSearchAux] at h
      cases ht : tryBare n prev (c :: rest) with
      | some ds' =>
          rw [ht] at h
          simp only [Option.some.injEq] at h
          obtain ⟨rem, hsplit, hlen, hdig⟩ := tryBare_spec n prev (c :: rest) ds' ht
          subst h
          exact ⟨⟨[], rem, by simpa using hsplit⟩, hlen, hdig⟩
      | none =>
          rw [ht] at h
          obtain ⟨⟨pre, post, hsplit⟩, hlen, hdig⟩ := ih (some c) ds h
          exact ⟨⟨c :: pre, post, by simp [hsplit]⟩, hlen, hdig⟩

theorem bareSearchL_spec (n : Nat) (s ds : List Char)
    (h : bareSearchL n s = some ds) :
    (∃ pre post, s = pre ++ ds ++ post) ∧
    ds.length = n ∧ ds.all Char.isDigit = true :=
  bareSearchAux_spec n s none ds h

/-! ## C1: keyword-anchored pattern versus bare digit runs -/

/-- C1 (counterexample): the claim says the keyword-anchored capture wins
over any bare digit run elsewhere in the text.  On
`"call 12345 or code: 7777"` the keyword-anchored pattern captures
`"7777"`, yet the extractor returns the earlier bare 5-digit run
`"12345"`, because `main.py` tries the bare patterns first. -/
theorem extractCode_keyword_claim_cex :
    kwSearch "code" "call 12345 or code: 7777" = some "7777" ∧
    extractCode "call 12345 or code: 7777" = some "12345" ∧
    some "12345" ≠ some "7777" := by
  refine ⟨by decide, by decide, by decide⟩

/-- C1 (amended): the extractor returns the keyword-anchored capture only
when no word-bounded bare 6-, 5- or 4-digit run matches anywhere in the
text; the `code` pattern is tried before the `verification` pattern. -/
theorem extractCode_keyword_when_no_bare_run (msg : String)
    (h6 : bareSearch 6 msg = none) (h5 : bareSearch 5 msg = none)
    (h4 : bareSearch 4 msg = none) :
    extractCode msg =
      match kwSearch "code" msg with
      | some c => some c
      | none => kwSearch "verification" msg := by
  unfold extractCode
  rw [h6, h5, h4]

/-- C1 witness: on `"code: 1234567"` no bare run matches (the 7-digit run
is not word-bounded at length 4, 5 or 6) and the keyword pattern captures
the full run. -/
theorem extractCode_keyword_when_no_bare_run_witness :
    bareSearch 6 "code: 1234567" = none ∧
    bareSearch 5 "code: 1234567" = none ∧
    bareSearch 4 "code: 1234567" = none ∧
    kwSearch "code" "code: 1234567" = some "1234567" ∧
    extractCode "code: 1234567" =
      match kwSearch "code" "code: 1234567" with
      | some c => some c
      | none => kwSearch "verification" "code: 1234567" :=
  ⟨by decide, by decide, by decide, by decide,
   extractCode_keyword_when_no_bare_run "code: 1234567" (by decide) (by decide) (by decide)⟩

/-! ## C7: bare digit runs, longest supported length first -/

/-- C7: when no keyword-anchored pattern matches and some word-bounded
bare run of length 6, 5 or 4 exists, the extractor returns a word-bounded
all-digit run of the longest supported length present (6 before 5 before
4); the returned digits occur contiguously in the message. -/
theorem extractCode_bare_run_longest (msg : String)
    (_hkw : kwSearch "code" msg = none ∧ kwSearch "verification" msg = none)
    (hbare : bareSearch 6 msg ≠ none ∨ bareSearch 5 msg ≠ none ∨ bareSearch 4 msg ≠ none) :
    ∃ n, (n = 6 ∨ n = 5 ∨ n = 4) ∧
      (∃ ds : List Char,
        bareSearchL n msg.toList = some ds ∧
        extractCode msg = some (String.mk ds) ∧
        ds.length = n ∧ ds.all Char.isDigit = true ∧
        ∃ pre post, msg.toList = pre ++ ds ++ post) ∧
      ∀ m, (m = 6 ∨ m = 5 ∨ m = 4) → n < m → bareSearch m msg = none := by
  cases h6 : bareSearchL 6 msg.toList with
  | some ds =>
      refine ⟨6, Or.inl rfl, ⟨ds, h6, ?_, ?_⟩, ?_⟩
      · unfold extractCode bareSearch
        rw [h6]
        rfl
      · obtain ⟨hocc, hlen, hdig⟩ := bareSearchL_spec 6 msg.toList ds h6
        exact ⟨hlen, hdig, hocc⟩
      · intro m hm hlt
        rcases hm with rfl | rfl | rfl <;> omega
  | none =>
      cases h5 : bareSearchL 5 msg.toList with
      | some ds =>
          refine ⟨5, Or.inr (Or.inl rfl), ⟨ds, h5, ?_, ?_⟩, ?_⟩
          · unfold extractCode bareSearch
            rw [h6, h5]
            rfl
          · obtain ⟨hocc, hlen, hdig⟩ := bareSearchL_spec 5 msg.toList ds h5
            exact ⟨hlen, hdig, hocc⟩
          · intro m hm hlt
            rcases hm with rfl | rfl | rfl
            · unfold bareSearch; rw [h6]; rfl
            · omega
            · omega
      | none =>
          cases h4 : bareSearchL 4 msg.toList with
          | some ds =>
              refine ⟨4, Or.inr (Or.inr rfl), ⟨ds, h4, ?_, ?_⟩, ?_⟩
              · unfold extractCode bareSearch
                rw [h6, h5, h4]
                rfl
              · obtain ⟨hocc, hlen, hdig⟩ := bareSearchL_spec 4 msg.toList ds h4
                exact ⟨hlen, hdig, hocc⟩
              · intro m hm hlt
                rcases hm with rfl | rfl | rfl
                · unfold bareSearch; rw [h6]; rfl
                · unfold bareSearch; rw [h5]; rfl
                · omega
          | none =>
              exfalso
              rcases hbare with h | h | h
              · exact h (by unfold bareSearch; rw [h6]; rfl)
              · exact h (by unfold bareSearch; rw [h5]; rfl)
              · exact h (by unfold bareSearch; rw [h4]; rfl)

/-- C7 witness: `"pin 12345 and 6789"` has no keyword pattern, no bare
6-digit run, and bare runs of lengths 5 and 4; the extractor returns the
5-digit run. -/
theorem extractCode_bare_run_longest_witness :
    (kwSearch "code" "pin 12345 and 6789" = none ∧
     kwSearch "verification" "pin 12345 and 6789" = none) ∧
    (bareSearch 6 "pin 12345 and 6789" ≠ none ∨
     bareSearch 5 "pin 12345 and 6789" ≠ none ∨
     bareSearch 4 "pin 12345 and 6789" ≠ none) ∧
    (∃ n, (n = 6 ∨ n = 5 ∨ n = 4) ∧
      (∃ ds : List Char,
        bareSearchL n (String.toList "pin 12345 and 6789") = some ds ∧
        extractCode "pin 12345 and 6789" = some (String.mk ds) ∧
        ds.length = n ∧ ds.all Char.isDigit = true ∧
        ∃ pre post, String.toList "pin 12345 and 6789" = pre ++ ds ++ post) ∧
      ∀ m, (m = 6 ∨ m = 5 ∨ m = 4) → n < m → bareSearch m "pin 12345 and 6789" = none) :=
  ⟨⟨by decide, by decide⟩, Or.inr (Or.inl (by decide)),
   extractCode_bare_run_longest "pin 12345 and 6789" ⟨by decide, by decide⟩
     (Or.inr (Or.inl (by decide)))⟩

/-! ## C8: platform detection priority and case-insensitivity -/

/-- C8: the code's platform detection coincides with the spec's
lower-case-then-priority-ordered containment cascade; its result depends
only on the lower-cased text (case-insensitivity); a message containing
both an instagram and a tiktok keyword is tagged `instagram`; a message
matching no keyword set is tagged `unknown`. -/
theorem detectPlatform_priority_case_insensitive :
    (∀ msg, detectPlatform msg = detectPlatformSpec msg) ∧
    (∀ m₁ m₂, lowerAscii m₁ = lowerAscii m₂ → detectPlatform m₁ = detectPlatform m₂) ∧
    detectPlatform "Both Instagram and TikTok sent this" = "instagram" ∧
    detectPlatform "INSTAGRAM SAYS HI" = "instagram" ∧
    detectPlatform "no keywords present 99" = "unknown" := by
  refine ⟨fun msg => rfl, fun m₁ m₂ h => ?_, by decide, by decide, by decide⟩
  simp only [detectPlatform]
  rw [h]

/-- C8 witness: case-insensitivity applied at a concrete pair differing
only in case. -/
theorem detectPlatform_priority_case_insensitive_witness :
    detectPlatform "IG rocks" = detectPlatform "ig ROCKS" :=
  detectPlatform_priority_case_insensitive.2.1 "IG rocks" "ig ROCKS" (by decide)

/-! ## C10: the bare `ig` substring check -/

/-- C10: any message whose lower-cased text contains the two-character
substring `ig` anywhere — even inside an unrelated word — is tagged
`instagram`, because the instagram keyword check is a plain substring test
and runs first. -/
theorem detectPlatform_ig_substring (msg : String)
    (h : containsSub "ig" (lowerAscii msg) = true) :
    detectPlatform msg = "instagram" := by
  simp only [detectPlatform]
  have hany : anyKeyword (lowerAscii msg) ["instagram", "ig"] = true := by
    simp [anyKeyword, h]
  rw [hany]
  simp

/-- C10 witness: `"Good night"` contains `ig` inside `night` and is tagged
`instagram`. -/
theorem detectPlatform_ig_substring_witness :
    containsSub "ig" (lowerAscii "Good night") = true ∧
    detectPlatform "Good night" = "instagram" :=
  ⟨by decide, detectPlatform_ig_substring "Good night" (by decide)⟩

/-! ## Support lemmas for the store -/

theorem pickLatest_mem (l : List Record) (r : Record) (h : pickLatest l = some r) :
    r ∈ l := by
  induction l with
  | nil => simp [pickLatest] at h
  | cons a rest ih =>
      simp only [pickLatest] at h
      cases hp : pickLatest rest with
      | none =>
          rw [hp] at h
          simp only [Option.some.injEq] at h
          subst h
          exact List.mem_cons_self a rest
      | some best =>
          rw [hp] at h
          dsimp only at h
          by_cases ht : tsLt a.timestamp best.timestamp = true
          · rw [if_pos ht] at h
            simp only [Option.some.injEq] at h
            subst h
            exact List.mem_cons_of_mem a (ih hp)
          · rw [if_neg ht] at h
            simp only [Option.some.injEq] at h
            subst h
            exact List.mem_cons_self a rest

theorem matchesQuery_fields (r : Record) (phone platform : String)
    (h : matchesQuery r phone platform = true) :
    r.phone = phone ∧ r.platform = platform ∧
    (∃ v, r.extracted_code = some v) ∧ r.used = false := by
  unfold matchesQuery at h
  simp only [Bool.and_eq_true, beq_iff_eq, Bool.not_eq_true',
    Option.isSome_iff_exists] at h
  exact ⟨h.1.1.1, h.1.1.2, h.1.2, h.2⟩

/-! ## C6: consume only returns records matching the query -/

/-- C6: whenever the platform-scoped lookup returns a code, the selected
row's phone and platform equal the queried phone and platform (and the row
was unused, held that code, and bore the returned timestamp). -/
theorem getPlatformCode_matches_query (s : Store) (phone platform c t : String)
    (h : (getPlatformCode s phone platform).1 = some (c, t)) :
    ∃ r ∈ s.records, r.phone = phone ∧ r.platform = platform ∧
      r.extracted_code = some c ∧ r.timestamp = t ∧ r.used = false := by
  unfold getPlatformCode at h
  cases hp : pickLatest (s.records.filter fun r => matchesQuery r phone platform) with
  | none => rw [hp] at h; exact absurd h (by simp)
  | some r =>
      rw [hp] at h
      dsimp only at h
      simp only [Option.some.injEq, Prod.mk.injEq] at h
      obtain ⟨hc, htt⟩ := h
      have hmem := pickLatest_mem _ _ hp
      rw [List.mem_filter] at hmem
      obtain ⟨hmem, hq⟩ := hmem
      obtain ⟨hph, hpl, ⟨v, hv⟩, hused⟩ := matchesQuery_fields r phone platform hq
      refine ⟨r, hmem, hph, hpl, ?_, htt, hused⟩
      rw [hv] at hc ⊢
      simp only [Option.getD_some] at hc
      rw [hc]

/-- C6 witness: on a store holding an instagram and a twitter record for
phone `w`, the twitter query returns the twitter record's data, and the
selected record matches the query. -/
theorem getPlatformCode_matches_query_witness :
    (getPlatformCode sC6 "w" "twitter").1 = some ("9999", "2024-03-02T00:00:00") ∧
    ∃ r ∈ sC6.records, r.phone = "w" ∧ r.platform = "twitter" ∧
      r.extracted_code = some "9999" ∧ r.timestamp = "2024-03-02T00:00:00" ∧
      r.used = false :=
  ⟨by decide, getPlatformCode_matches_query sC6 "w" "twitter" "9999"
    "2024-03-02T00:00:00" (by decide)⟩

/-! ## C2: what the consume UPDATE actually touches -/

/-- C2 (counterexample): the claim says only the returned record's `used`
flag changes.  With two unused instagram records for phone `p` carrying
the same code `1234`, the lookup returns the newer record (id 2) but the
older record (id 1) also has its `used` flag set, because the UPDATE's
WHERE clause matches on `(phone, platform, extracted_code)`. -/
theorem getPlatformCode_marks_all_same_code_cex :
    (getPlatformCode sC2 "p" "instagram").1 = some ("1234", r2C2.timestamp) ∧
    r1C2.used = false ∧
    (getPlatformCode sC2 "p" "instagram").2.records.get? 0 =
      some { r1C2 with used := true } := by
  refine ⟨by decide, by decide, by decide⟩

/-- C2 (amended): when the lookup returns code `c`, the new table is the
old one with `used := true` on exactly the rows whose
`(phone, platform, extracted_code)` equals `(phone, platform, some c)`;
every other row, and every field other than `used`, is unchanged, and the
AUTOINCREMENT counter is unchanged. -/
theorem getPlatformCode_update_frame (s : Store) (phone platform c t : String)
    (h : (getPlatformCode s phone platform).1 = some (c, t)) :
    (getPlatformCode s phone platform).2.nextId = s.nextId ∧
    ∀ i q, s.records.get? i = some q →
      (getPlatformCode s phone platform).2.records.get? i =
        some (if tripleMatches q phone platform c then { q with used := true } else q) := by
  unfold getPlatformCode at h ⊢
  cases hp : pickLatest (s.records.filter fun r => matchesQuery r phone platform) with
  | none => rw [hp] at h; exact absurd h (by simp)
  | some r =>
      rw [hp] at h
      replace h : some (r.extracted_code.getD "", r.timestamp) = some (c, t) := h
      simp only [Option.some.injEq, Prod.mk.injEq] at h
      obtain ⟨hc, _⟩ := h
      subst hc
      refine ⟨rfl, fun i q hq => ?_⟩
      show (s.records.map fun q =>
          if tripleMatches q phone platform (r.extracted_code.getD "") then
            { q with used := true } else q).get? i =
        some (if tripleMatches q phone platform (r.extracted_code.getD "") then
          { q with used := true } else q)
      rw [List.get?_map, hq]
      rfl

/-- C2 witness: the frame property applied to the two-record store — row 0
matches the triple and is returned with `used := true`. -/
theorem getPlatformCode_update_frame_witness :
    (getPlatformCode sC2 "p" "instagram").1 = some ("1234", r2C2.timestamp) ∧
    (getPlatformCode sC2 "p" "instagram").2.records.get? 0 =
      some (if tripleMatches r1C2 "p" "instagram" "1234"
            then { r1C2 with used := true } else r1C2) :=
  ⟨by decide,
   (getPlatformCode_update_frame sC2 "p" "instagram" "1234" r2C2.timestamp
     (by decide)).2 0 r1C2 (by decide)⟩

/-! ## C3: a single unused record is consumed exactly once -/

/-- C3: if exactly one row matches `(phone, platform, unused, non-null
code)`, two successive lookups return that row's code and timestamp first,
then nothing. -/
theorem getPlatformCode_single_record_consumed_once
    (s : Store) (phone platform : String) (r : Record)
    (h : s.records.filter (fun q => matchesQuery q phone platform) = [r]) :
    ∃ c, r.extracted_code = some c ∧
      (getPlatformCode s phone platform).1 = some (c, r.timestamp) ∧
      (getPlatformCode (getPlatformCode s phone platform).2 phone platform).1 = none := by
  have hrmem : r ∈ s.records.filter (fun q => matchesQuery q phone platform) := by
    rw [h]; exact List.mem_singleton.mpr rfl
  rw [List.mem_filter] at hrmem
  obtain ⟨hrmem, hrq⟩ := hrmem
  obtain ⟨hph, hpl, ⟨v, hv⟩, hused⟩ := matchesQuery_fields r phone platform hrq
  refine ⟨v, hv, ?_, ?_⟩
  · unfold getPlatformCode
    rw [h]
    simp only [pickLatest]
    rw [hv]
    rfl
  · unfold getPlatformCode
    rw [h]
    simp only [pickLatest]
    have hfilter :
        ((s.records.map fun q =>
          if tripleMatches q phone platform (r.extracted_code.getD "") then
            { q with used := true } else q).filter
          fun q => matchesQuery q phone platform) = [] := by
      rw [List.filter_eq_nil_iff]
      intro q' hq' hmq
      obtain ⟨q, hqmem, rfl⟩ := List.mem_map.mp hq'
      by_cases htr : tripleMatches q phone platform (r.extracted_code.getD "") = true
      · rw [if_pos htr] at hmq
        obtain ⟨_, _, _, hu⟩ := matchesQuery_fields _ phone platform hmq
        simp at hu
      · rw [if_neg htr] at hmq
        have hqr : q = r := by
          have : q ∈ s.records.filter (fun q => matchesQuery q phone platform) :=
            List.mem_filter.mpr ⟨hqmem, hmq⟩
          rw [h] at this
          exact List.mem_singleton.mp this
        subst hqr
        apply htr
        unfold tripleMatches
        rw [hph, hpl, hv]
        simp
    rw [hfilter]
    rfl

/-- C3 witness: a store holding exactly one unused tiktok record with code
`55555` yields that code once and then nothing. -/
theorem getPlatformCode_single_record_consumed_once_witness :
    sC3.records.filter (fun q => matchesQuery q "q" "tiktok") = [rC3] ∧
    ∃ c, rC3.extracted_code = some c ∧
      (getPlatformCode sC3 "q" "tiktok").1 = some (c, rC3.timestamp) ∧
      (getPlatformCode (getPlatformCode sC3 "q" "tiktok").2 "q" "tiktok").1 = none :=
  ⟨by decide,
   getPlatformCode_single_record_consumed_once sC3 "q" "tiktok" rC3 (by decide)⟩

/-! ## C4: the shape of the health response -/

/-- C4 (counterexample): the claim says the health response contains a
`total_messages` field; it does not — the handler only builds `status`,
`database` and `messages_24h`. -/
theorem healthCheck_no_total_messages_cex :
    ¬ ("total_messages" ∈ (healthCheck { records := [], nextId := 1 } "2024-01-01").map Prod.fst) := by
  decide

/-- C4 (amended): for every store and cutoff, the health response has
exactly the keys `status`, `database` and `messages_24h`; `messages_24h`
is the number of rows with timestamp strictly greater than the cutoff; and
there is no `total_messages` field. -/
theorem healthCheck_fields (s : Store) (cutoff : String) :
    (healthCheck s cutoff).map Prod.fst = ["status", "database", "messages_24h"] ∧
    (healthCheck s cutoff).lookup "messages_24h" = some (HVal.num (countSince s cutoff)) ∧
    ("total_messages" ∈ (healthCheck s cutoff).map Prod.fst → False) := by
  refine ⟨rfl, rfl, ?_⟩
  intro hmem
  simp [healthCheck] at hmem

/-- C4 witness: the amended statement at a concrete store and cutoff. -/
theorem healthCheck_fields_witness :
    (healthCheck sC2 "2024-01-01T12:00:00").map Prod.fst =
      ["status", "database", "messages_24h"] ∧
    (healthCheck sC2 "2024-01-01T12:00:00").lookup "messages_24h" =
      some (HVal.num (countSince sC2 "2024-01-01T12:00:00")) ∧
    ("total_messages" ∈ (healthCheck sC2 "2024-01-01T12:00:00").map Prod.fst → False) :=
  healthCheck_fields sC2 "2024-01-01T12:00:00"

/-! ## C5: extraction failure stores nothing -/

/-- C5: when no extraction method ends with both a truthy phone and a
truthy message (including when a method raises), the webhook handler
returns the in-band error response and the store is unchanged. -/
theorem receiveSms_extraction_failure_no_insert
    (data : Json) (now : String) (s : Store)
    (h : extractionFails data now = true) :
    receiveSms data now s = (WebhookResp.error, s) := by
  unfold extractionFails at h
  unfold receiveSms
  cases hE : extractPM data now with
  | error e => rfl
  | ok triple =>
      obtain ⟨p, m, rA⟩ := triple
      rw [hE] at h
      dsimp only at h ⊢
      rw [if_pos h]

/-- C5 witness: the empty JSON object defeats all four extraction methods;
the handler reports an error and the store stays empty. -/
theorem receiveSms_extraction_failure_no_insert_witness :
    extractionFails (.obj []) "2024-01-01T00:00:00" = true ∧
    receiveSms (.obj []) "2024-01-01T00:00:00" { records := [], nextId := 1 } =
      (WebhookResp.error, { records := [], nextId := 1 }) :=
  ⟨by decide,
   receiveSms_extraction_failure_no_insert (.obj []) "2024-01-01T00:00:00"
     { records := [], nextId := 1 } (by decide)⟩

/-! ## C9: store invariants across operation sequences -/

theorem sameCore_refl (r : Record) : sameCore r r :=
  ⟨rfl, rfl, rfl, rfl, rfl, rfl⟩

theorem sameCore_trans {a b c : Record} (h1 : sameCore a b) (h2 : sameCore b c) :
    sameCore a c := by
  obtain ⟨i1, p1, m1, t1, e1, l1⟩ := h1
  obtain ⟨i2, p2, m2, t2, e2, l2⟩ := h2
  exact ⟨i2.trans i1, p2.trans p1, m2.trans m1, t2.trans t1, e2.trans e1, l2.trans l1⟩

theorem evolves_refl (s : Store) : Evolves s s :=
  ⟨Nat.le_refl _, fun _ r h => ⟨r, h, sameCore_refl r, fun hu => hu⟩⟩

theorem evolves_trans {s1 s2 s3 : Store} (h12 : Evolves s1 s2) (h23 : Evolves s2 s3) :
    Evolves s1 s3 := by
  obtain ⟨hn1, hp1⟩ := h12
  obtain ⟨hn2, hp2⟩ := h23
  refine ⟨hn1.trans hn2, fun i r h => ?_⟩
  obtain ⟨r', h', hc', hu'⟩ := hp1 i r h
  obtain ⟨r'', h'', hc'', hu''⟩ := hp2 i r' h'
  exact ⟨r'', h'', sameCore_trans hc' hc'', fun hu => hu'' (hu' hu)⟩

theorem consume_records_shape (s : Store) (p pl : String) :
    (getPlatformCode s p pl).2.nextId = s.nextId ∧
    ((getPlatformCode s p pl).2.records = s.records ∨
     ∃ c, (getPlatformCode s p pl).2.records =
       s.records.map fun q =>
         if tripleMatches q p pl c then { q with used := true } else q) := by
  unfold getPlatformCode
  cases hp : pickLatest (s.records.filter fun r => matchesQuery r p pl) with
  | none => exact ⟨rfl, Or.inl rfl⟩
  | some r => exact ⟨rfl, Or.inr ⟨r.extracted_code.getD "", rfl⟩⟩

theorem applyOp_evolves (s : Store) (op : Op) : Evolves s (applyOp s op) := by
  cases op with
  | insert p m t c pl =>
      refine ⟨Nat.le_succ _, fun i r h => ⟨r, ?_, sameCore_refl r, fun hu => hu⟩⟩
      show (s.records ++ [_]).get? i = some r
      rw [List.get?_append]
      · exact h
      · obtain ⟨hlt, _⟩ := List.get?_eq_some.mp h
        exact hlt
  | consume p pl =>
      obtain ⟨hn, hshape⟩ := consume_records_shape s p pl
      show Evolves s (getPlatformCode s p pl).2
      cases hshape with
      | inl heq =>
          refine ⟨le_of_eq hn.symm, fun i r h => ⟨r, ?_, sameCore_refl r, fun hu => hu⟩⟩
          rw [heq]
          exact h
      | inr hmap =>
          obtain ⟨c, hmap⟩ := hmap
          refine ⟨le_of_eq hn.symm, fun i r h => ?_⟩
          rw [hmap, List.get?_map, h]
          by_cases htr : tripleMatches r p pl c = true
          · refine ⟨{ r with used := true }, ?_, ⟨rfl, rfl, rfl, rfl, rfl, rfl⟩, fun _ => rfl⟩
            show some (if tripleMatches r p pl c = true then { r with used := true } else r) =
              some { r with used := true }
            rw [if_pos htr]
          · refine ⟨r, ?_, sameCore_refl r, fun hu => hu⟩
            show some (if tripleMatches r p pl c = true then { r with used := true } else r) =
              some r
            rw [if_neg htr]
  | latest _ => exact evolves_refl s
  | recent _ _ => exact evolves_refl s
  | countSince _ => exact evolves_refl s
  | countTotal => exact evolves_refl s

theorem applyOp_wf (s : Store) (op : Op) (h : WFStore s) : WFStore (applyOp s op) := by
  obtain ⟨hpair, hbound⟩ := h
  cases op with
  | insert p m t c pl =>
      constructor
      · show List.Pairwise (· < ·) ((s.records ++ [_]).map Record.id)
        rw [List.map_append]
        rw [List.pairwise_append]
        refine ⟨hpair, List.pairwise_singleton _ _, ?_⟩
        intro a ha b hb
        simp only [List.map_cons, List.map_nil, List.mem_singleton] at hb
        subst hb
        obtain ⟨r, hr, rfl⟩ := List.mem_map.mp ha
        exact hbound r hr
      · intro r hr
        show r.id < s.nextId + 1
        rcases List.mem_append.mp hr with hr | hr
        · exact Nat.lt_succ_of_lt (hbound r hr)
        · rw [List.mem_singleton] at hr
          subst hr
          exact Nat.lt_succ_self _
  | consume p pl =>
      obtain ⟨hn, hshape⟩ := consume_records_shape s p pl
      show WFStore (getPlatformCode s p pl).2
      cases hshape with
      | inl heq =>
          rw [WFStore, heq, hn]
          exact ⟨hpair, hbound⟩
      | inr hmap =>
          obtain ⟨c, hmap⟩ := hmap
          rw [WFStore, hmap, hn]
          have hids : ((s.records.map fun q =>
              if tripleMatches q p pl c then { q with used := true } else q).map Record.id) =
              s.records.map Record.id := by
            rw [List.map_map]
            apply List.map_congr_left
            intro q hq
            by_cases htr : tripleMatches q p pl c = true
            · simp only [Function.comp_apply, if_pos htr]
            · simp only [Function.comp_apply, if_neg htr]
          constructor
          · rw [hids]
            exact hpair
          · intro r hr
            obtain ⟨q, hq, rfl⟩ := List.mem_map.mp hr
            by_cases htr : tripleMatches q p pl c = true
            · rw [if_pos htr]
              exact hbound q hq
            · rw [if_neg htr]
              exact hbound q hq
  | latest _ => exact ⟨hpair, hbound⟩
  | recent _ _ => exact ⟨hpair, hbound⟩
  | countSince _ => exact ⟨hpair, hbound⟩
  | countTotal => exact ⟨hpair, hbound⟩

theorem applyOps_evolves (ops : List Op) : ∀ s : Store, Evolves s (applyOps s ops) := by
  induction ops with
  | nil => intro s; exact evolves_refl s
  | cons op rest ih =>
      intro s
      exact evolves_trans (applyOp_evolves s op) (ih (applyOp s op))

theorem applyOps_wf (ops : List Op) : ∀ s : Store, WFStore s → WFStore (applyOps s ops) := by
  induction ops with
  | nil => intro s h; exact h
  | cons op rest ih =>
      intro s h
      exact ih (applyOp s op) (applyOp_wf s op h)

/-- C9: starting from a well-formed table, any sequence of store
operations preserves well-formedness (ids unique, strictly increasing in
rowid order, below the AUTOINCREMENT counter); every existing row survives
in place with all fields except `used` unchanged and `used` only ever
going from `false` to `true`; and an insert appends a row with
`used = false` whose id is strictly larger than every existing id. -/
theorem store_invariants_preserved (ops : List Op) (s : Store) (hwf : WFStore s) :
    WFStore (applyOps s ops) ∧
    Evolves s (applyOps s ops) ∧
    ∀ p m t c pl,
      (Store.insert s p m t c pl).2.records =
        s.records ++ [{ id := (Store.insert s p m t c pl).1, phone := p, message := m,
                        timestamp := t, extracted_code := c, platform := pl,
                        used := false }] ∧
      ∀ r ∈ s.records, r.id < (Store.insert s p m t c pl).1 :=
  ⟨applyOps_wf ops s hwf, applyOps_evolves ops s,
   fun _ _ _ _ _ => ⟨rfl, fun r hr => hwf.2 r hr⟩⟩

/-- C9 witness: the invariants instantiated on a concrete sequence of two
inserts, a consume and a count, starting from the empty table. -/
theorem store_invariants_preserved_witness :
    WFStore { records := [], nextId := 1 } ∧
    (WFStore (applyOps { records := [], nextId := 1 } opsC9) ∧
     Evolves { records := [], nextId := 1 } (applyOps { records := [], nextId := 1 } opsC9) ∧
     ∀ p m t c pl,
       (Store.insert { records := [], nextId := 1 } p m t c pl).2.records =
         [{ id := (Store.insert { records := [], nextId := 1 } p m t c pl).1,
            phone := p, message := m, timestamp := t, extracted_code := c,
            platform := pl, used := false }] ∧
       ∀ r ∈ ({ records := [], nextId := 1 } : Store).records,
         r.id < (Store.insert { records := [], nextId := 1 } p m t c pl).1) := by
  have hwf : WFStore { records := [], nextId := 1 } :=
    ⟨List.Pairwise.nil, fun r hr => absurd hr (List.not_mem_nil r)⟩
  have hmain := store_invariants_preserved opsC9 { records := [], nextId := 1 } hwf
  exact ⟨hwf, hmain⟩
